import Mathlib

/-!
Verification of the MiJIT runtime code generator.

The program builds an architecture-specific machine-code template, patches a
message-length placeholder into it, appends the message payload, rounds the
buffer size up to a page multiple, and walks an mmap → copy → mprotect →
invoke → munmap lifecycle.  Every definition below is a shallow embedding of
the corresponding construct in `main.cpp`; bytes are modelled as `Nat` values
below 256, `size_t` arithmetic is taken modulo `2 ^ 64` where overflow can
occur, and the operating-system calls of `main` are modelled by an explicit
event trace parameterised over the success of `mmap` and `mprotect`.
-/

namespace MiJIT

/-- The four architecture profiles selected by the preprocessor conditionals
(`__linux__`/`__APPLE__` × `__x86_64__`/`__aarch64__`) in `main.cpp`. -/
inductive Arch where
  | linuxX86_64
  | macosX86_64
  | linuxArm64
  | appleSiliconArm64
deriving DecidableEq

/-- The fixed `machine_code` template vector built in `main` (lines 92-153),
one byte list per architecture profile. -/
def machine_code : Arch → List Nat
  | .linuxX86_64 =>
      [0x48, 0xc7, 0xc0, 0x01, 0x00, 0x00, 0x00,
       0x48, 0xc7, 0xc7, 0x01, 0x00, 0x00, 0x00,
       0x48, 0x8d, 0x35, 0x0a, 0x00, 0x00, 0x00,
       0x48, 0xc7, 0xc2, 0x00, 0x00, 0x00, 0x00,
       0x0f, 0x05,
       0xc3]
  | .macosX86_64 =>
      [0x48, 0xc7, 0xc0, 0x04, 0x00, 0x00, 0x02,
       0x48, 0xc7, 0xc7, 0x01, 0x00, 0x00, 0x00,
       0x48, 0x8d, 0x35, 0x0a, 0x00, 0x00, 0x00,
       0x48, 0xc7, 0xc2, 0x00, 0x00, 0x00, 0x00,
       0x0f, 0x05,
       0xc3]
  | .linuxArm64 =>
      [0x20, 0x00, 0x80, 0xd2,
       0x41, 0x00, 0x00, 0x10,
       0x42, 0x00, 0x80, 0xd2,
       0x08, 0x08, 0x80, 0xd2,
       0x01, 0x00, 0x00, 0xd4,
       0xc0, 0x03, 0x5f, 0xd6]
  | .appleSiliconArm64 =>
      [0x00, 0x00, 0x80, 0xd2,
       0xc0, 0x03, 0x5f, 0xd6]

/-- `append_message_size` (lines 273-314 of `main.cpp`): patches the message
length into the template.  `hello_name` is the message as a byte list, so
`hello_name.length` is `hello_name.length()` of the C++ `string_view`.  The
x86-64 profiles write four masked-and-shifted bytes at indices 24-27, the
Linux ARM64 profile writes two bytes of `(length & 0xFFFF) << 5` at indices
8-9, and the Apple Silicon profile leaves the buffer untouched. -/
def append_message_size (arch : Arch) (machine_code : List Nat)
    (hello_name : List Nat) : List Nat :=
  match arch with
  | .appleSiliconArm64 => machine_code
  | .linuxX86_64 | .macosX86_64 =>
      let message_size := hello_name.length
      ((((machine_code.set 24 ((message_size &&& 0xFF) >>> 0)).set
          25 ((message_size &&& 0xFF00) >>> 8)).set
          26 ((message_size &&& 0xFF0000) >>> 16)).set
          27 ((message_size &&& 0xFF000000) >>> 24))
  | .linuxArm64 =>
      let message_size := hello_name.length
      let encoded_size := (message_size &&& 0xFFFF) <<< 5
      (machine_code.set 8 ((encoded_size &&& 0xFF) >>> 0)).set
        9 ((encoded_size &&& 0xFF00) >>> 8)

/-- The payload-append loop of `main` (lines 163-169): each character of the
message is pushed onto the buffer, except on Apple Silicon where the loop is
compiled out by `#if !defined(__APPLE__) || !defined(__aarch64__)`. -/
def append_payload (arch : Arch) (machine_code : List Nat)
    (hello_name : List Nat) : List Nat :=
  match arch with
  | .appleSiliconArm64 => machine_code
  | _ => machine_code ++ hello_name

/-- The greeting construction of `main` (lines 58-59):
`std::string{"Hello, "} + name + "!\n"`, on byte lists. -/
def hello_name (name : List Nat) : List Nat :=
  [0x48, 0x65, 0x6c, 0x6c, 0x6f, 0x2c, 0x20] ++ name ++ [0x21, 0x0a]

/-- The complete buffer `main` hands to the executable region: template,
then the length patch (STEP 5), then the payload append (STEP 6). -/
def jit_buffer (arch : Arch) (msg : List Nat) : List Nat :=
  append_payload arch (append_message_size arch (machine_code arch) msg) msg

/-- The byte list of the name "World". -/
def worldName : List Nat := [0x57, 0x6f, 0x72, 0x6c, 0x64]

/-- The byte list of the name "Ada". -/
def adaName : List Nat := [0x41, 0x64, 0x61]

/-- The recorded golden instruction bytes for the Linux x86-64 profile with a
14-byte message: the 31-byte template with `0x0E` patched at index 24. -/
def golden_linux_instrs : List Nat :=
  [0x48, 0xc7, 0xc0, 0x01, 0x00, 0x00, 0x00,
   0x48, 0xc7, 0xc7, 0x01, 0x00, 0x00, 0x00,
   0x48, 0x8d, 0x35, 0x0a, 0x00, 0x00, 0x00,
   0x48, 0xc7, 0xc2, 0x0e, 0x00, 0x00, 0x00,
   0x0f, 0x05,
   0xc3]

/-- Extracting a byte field: masking with `255 <<< s` and shifting right by
`s` selects bits `s..s+7`, i.e. `x / 2 ^ s % 256`. -/
theorem and_shifted_mask (x s : Nat) :
    (x &&& (255 <<< s)) >>> s = x / 2 ^ s % 256 := by
  have h : (x &&& (255 <<< s)) >>> s = (x >>> s) &&& 255 := by
    apply Nat.eq_of_testBit_eq
    intro j
    simp [Nat.le_add_right, Nat.add_sub_cancel_left]
  rw [h, Nat.shiftRight_eq_div_pow]
  have h255 : (255 : Nat) = 2 ^ 8 - 1 := rfl
  rw [h255, Nat.and_pow_two_sub_one_eq_mod]

theorem byte_field_0 (x : Nat) : (x &&& 0xFF) >>> 0 = x % 256 := by
  simpa using Nat.and_pow_two_sub_one_eq_mod x 8

theorem byte_field_8 (x : Nat) : (x &&& 0xFF00) >>> 8 = x / 2 ^ 8 % 256 := by
  have hm : (0xFF00 : Nat) = 255 <<< 8 := by decide
  rw [hm, and_shifted_mask]

theorem byte_field_16 (x : Nat) :
    (x &&& 0xFF0000) >>> 16 = x / 2 ^ 16 % 256 := by
  have hm : (0xFF0000 : Nat) = 255 <<< 16 := by decide
  rw [hm, and_shifted_mask]

theorem byte_field_24 (x : Nat) :
    (x &&& 0xFF000000) >>> 24 = x / 2 ^ 24 % 256 := by
  have hm : (0xFF000000 : Nat) = 255 <<< 24 := by decide
  rw [hm, and_shifted_mask]

/-- The 16-bit little-endian value stored at indices 8-9 of the patched
Linux ARM64 buffer. -/
def arm64_len_field (msg : List Nat) : Nat :=
  (append_message_size .linuxArm64 (machine_code .linuxArm64) msg).getD 8 0 +
    256 *
      (append_message_size .linuxArm64 (machine_code .linuxArm64) msg).getD
        9 0

/-- The byte indices each architecture's length patch is allowed to touch. -/
def patch_offsets : Arch → List Nat
  | .linuxX86_64 | .macosX86_64 => [24, 25, 26, 27]
  | .linuxArm64 => [8, 9]
  | .appleSiliconArm64 => []

end MiJIT

namespace MiJIT

/-- **C5.** On the Apple Silicon (restricted) profile the length patch is a
no-op and no payload is appended: for every message the final buffer is
exactly the fixed 8-byte template `mov x0, #0; ret`, unchanged by
`append_message_size` and by the payload loop. -/
theorem apple_silicon_fixed_buffer (msg : List Nat) :
    append_message_size .appleSiliconArm64 (machine_code .appleSiliconArm64)
        msg = machine_code .appleSiliconArm64 ∧
    jit_buffer .appleSiliconArm64 msg = machine_code .appleSiliconArm64 ∧
    machine_code .appleSiliconArm64 =
      [0x00, 0x00, 0x80, 0xd2, 0xc0, 0x03, 0x5f, 0xd6] ∧
    (machine_code .appleSiliconArm64).length = 8 :=
  ⟨rfl, rfl, rfl, rfl⟩

/-- **C1 (counterexample).** The claim asserts a 30-byte instruction prefix
before the payload on Linux x86-64, but the built, patched and appended
buffer for the message "Hello, World!\n" never splits as a 30-byte prefix
followed by the 14 payload bytes: the instruction prefix is 31 bytes long. -/
theorem linux_golden_no_thirty_byte_split :
    ¬ ∃ pre : List Nat, pre.length = 30 ∧
        jit_buffer .linuxX86_64 (hello_name worldName) =
          pre ++ hello_name worldName := by
  rintro ⟨pre, h30, heq⟩
  have hl : (jit_buffer .linuxX86_64 (hello_name worldName)).length = 45 := rfl
  rw [heq, List.length_append, h30] at hl
  have h14 : (hello_name worldName).length = 14 := rfl
  rw [h14] at hl
  exact absurd hl (by decide)

/-- **C1 (amended).** On Linux x86-64 with message "Hello, World!\n" (14
bytes), building the template, patching the length and appending the payload
yields exactly the golden 31-instruction-byte prefix, whose length-field
bytes at indices 24-27 are `0x0E, 0x00, 0x00, 0x00`, followed by the 14
ASCII payload bytes of the message. -/
theorem linux_hello_world_golden_bytes :
    jit_buffer .linuxX86_64 (hello_name worldName) =
      golden_linux_instrs ++ hello_name worldName ∧
    golden_linux_instrs.length = 31 ∧
    List.take 4 (List.drop 24 golden_linux_instrs) =
      [0x0E, 0x00, 0x00, 0x00] ∧
    (hello_name worldName).length = 14 ∧
    hello_name worldName =
      [0x48, 0x65, 0x6c, 0x6c, 0x6f, 0x2c, 0x20, 0x57, 0x6f, 0x72, 0x6c,
       0x64, 0x21, 0x0a] := by
  refine ⟨?_, rfl, rfl, rfl, rfl⟩
  decide

end MiJIT

namespace MiJIT

/-- **C3.** On both x86-64 profiles, `append_message_size` writes the message
length as a little-endian 4-byte raw value into the bytes at offsets 24-27 of
the template; in particular for input name "Ada" the message is
"Hello, Ada!\n" (length 12) and the patched bytes are `0x0C,0x00,0x00,0x00`
on both profiles. -/
theorem patch_x86_64_little_endian (msg : List Nat) :
    List.take 4 (List.drop 24
        (append_message_size .linuxX86_64 (machine_code .linuxX86_64) msg)) =
      [msg.length % 256, msg.length / 2 ^ 8 % 256,
       msg.length / 2 ^ 16 % 256, msg.length / 2 ^ 24 % 256] ∧
    List.take 4 (List.drop 24
        (append_message_size .macosX86_64 (machine_code .macosX86_64) msg)) =
      [msg.length % 256, msg.length / 2 ^ 8 % 256,
       msg.length / 2 ^ 16 % 256, msg.length / 2 ^ 24 % 256] ∧
    hello_name adaName =
      [0x48, 0x65, 0x6c, 0x6c, 0x6f, 0x2c, 0x20, 0x41, 0x64, 0x61, 0x21,
       0x0a] ∧
    (hello_name adaName).length = 12 ∧
    List.take 4 (List.drop 24 (append_message_size .linuxX86_64
        (machine_code .linuxX86_64) (hello_name adaName))) =
      [0x0C, 0x00, 0x00, 0x00] ∧
    List.take 4 (List.drop 24 (append_message_size .macosX86_64
        (machine_code .macosX86_64) (hello_name adaName))) =
      [0x0C, 0x00, 0x00, 0x00] := by
  refine ⟨?_, ?_, rfl, rfl, by decide, by decide⟩
  · show [(msg.length &&& 0xFF) >>> 0, (msg.length &&& 0xFF00) >>> 8,
        (msg.length &&& 0xFF0000) >>> 16,
        (msg.length &&& 0xFF000000) >>> 24] = _
    rw [byte_field_0, byte_field_8, byte_field_16, byte_field_24]
  · show [(msg.length &&& 0xFF) >>> 0, (msg.length &&& 0xFF00) >>> 8,
        (msg.length &&& 0xFF0000) >>> 16,
        (msg.length &&& 0xFF000000) >>> 24] = _
    rw [byte_field_0, byte_field_8, byte_field_16, byte_field_24]

/-- **C4 (counterexample).** For the 2048-byte message, the 2-byte field at
indices 8-9 of the patched Linux ARM64 buffer does not hold
`(length & 0xFFFF) << 5`: that value is `0x10000`, which does not fit in 16
bits, and the field holds `0`. -/
theorem patch_arm64_field_truncates :
    arm64_len_field (List.replicate 2048 0x61) ≠
      ((List.replicate 2048 0x61).length &&& 0xFFFF) <<< 5 := by
  have key : ∀ msg : List Nat, msg.length = 2048 →
      arm64_len_field msg ≠ (msg.length &&& 0xFFFF) <<< 5 := by
    intro msg hlen
    have h8 : (append_message_size .linuxArm64 (machine_code .linuxArm64)
        msg).getD 8 0 = (((msg.length &&& 0xFFFF) <<< 5) &&& 0xFF) >>> 0 :=
      rfl
    have h9 : (append_message_size .linuxArm64 (machine_code .linuxArm64)
        msg).getD 9 0 = (((msg.length &&& 0xFFFF) <<< 5) &&& 0xFF00) >>> 8 :=
      rfl
    unfold arm64_len_field
    rw [h8, h9, hlen]
    decide
  exact key _ (List.length_replicate 2048 0x61)

/-- **C4 (amended).** On the Linux ARM64 profile the patch overwrites the
2-byte little-endian field at offsets 8-9 with the low 16 bits of
`(length & 0xFFFF) << 5`, i.e. with `(length mod 2048) * 32`; this equals
`(length & 0xFFFF) << 5` itself exactly when `length & 0xFFFF < 0x800`. -/
theorem patch_arm64_field_value (msg : List Nat) :
    arm64_len_field msg = ((msg.length &&& 0xFFFF) <<< 5) % 65536 ∧
    arm64_len_field msg = msg.length % 2048 * 32 := by
  have h8 : (append_message_size .linuxArm64 (machine_code .linuxArm64)
      msg).getD 8 0 = (((msg.length &&& 0xFFFF) <<< 5) &&& 0xFF) >>> 0 := rfl
  have h9 : (append_message_size .linuxArm64 (machine_code .linuxArm64)
      msg).getD 9 0 = (((msg.length &&& 0xFFFF) <<< 5) &&& 0xFF00) >>> 8 :=
    rfl
  have hmask : msg.length &&& 0xFFFF = msg.length % 65536 := by
    simpa using Nat.and_pow_two_sub_one_eq_mod msg.length 16
  have hshift : (msg.length &&& 0xFFFF) <<< 5 = msg.length % 65536 * 32 := by
    rw [hmask, Nat.shiftLeft_eq]
  unfold arm64_len_field
  rw [h8, h9, byte_field_0, byte_field_8, hshift]
  omega

/-- **C9.** For every architecture profile, every buffer and every message,
the length patch changes neither the buffer's length nor any byte outside
the designated placeholder indices (24-27 on the x86-64 profiles, 8-9 on
Linux ARM64, none on the restricted profile). -/
theorem patch_frame (arch : Arch) (buf msg : List Nat) (i : Nat)
    (hi : i ∉ patch_offsets arch) :
    (append_message_size arch buf msg).length = buf.length ∧
    (append_message_size arch buf msg)[i]? = buf[i]? := by
  cases arch with
  | linuxX86_64 =>
      simp only [patch_offsets, List.mem_cons, List.not_mem_nil, or_false,
        not_or] at hi
      obtain ⟨h24, h25, h26, h27⟩ := hi
      exact ⟨by simp [append_message_size],
        by simp [append_message_size,
          List.getElem?_set_ne (Ne.symm h24), List.getElem?_set_ne
            (Ne.symm h25),
          List.getElem?_set_ne (Ne.symm h26), List.getElem?_set_ne
            (Ne.symm h27)]⟩
  | macosX86_64 =>
      simp only [patch_offsets, List.mem_cons, List.not_mem_nil, or_false,
        not_or] at hi
      obtain ⟨h24, h25, h26, h27⟩ := hi
      exact ⟨by simp [append_message_size],
        by simp [append_message_size,
          List.getElem?_set_ne (Ne.symm h24), List.getElem?_set_ne
            (Ne.symm h25),
          List.getElem?_set_ne (Ne.symm h26), List.getElem?_set_ne
            (Ne.symm h27)]⟩
  | linuxArm64 =>
      simp only [patch_offsets, List.mem_cons, List.not_mem_nil, or_false,
        not_or] at hi
      obtain ⟨h8, h9⟩ := hi
      exact ⟨by simp [append_message_size],
        by simp [append_message_size,
          List.getElem?_set_ne (Ne.symm h8), List.getElem?_set_ne
            (Ne.symm h9)]⟩
  | appleSiliconArm64 => exact ⟨rfl, rfl⟩

/-- **C9 (witness).** Concrete instance: on Linux x86-64 with the
"Hello, World!\n" message, the patch preserves the buffer length and leaves
byte 0 untouched. -/
theorem patch_frame_inst :
    (append_message_size .linuxX86_64 (machine_code .linuxX86_64)
        (hello_name worldName)).length = (machine_code .linuxX86_64).length ∧
    (append_message_size .linuxX86_64 (machine_code .linuxX86_64)
        (hello_name worldName))[0]? = (machine_code .linuxX86_64)[0]? :=
  patch_frame .linuxX86_64 (machine_code .linuxX86_64)
    (hello_name worldName) 0 (by decide)

end MiJIT

namespace MiJIT

/-- The observable operating-system interactions of the `try` block of `main`
(lines 174-234): region allocation, the copy into the region, the permission
flip attempt, calling the generated code, unmapping, and the error-stream
output of the `catch` handler. -/
inductive Event where
  | mmapAlloc
  | copyCode
  | mprotectAttempt
  | invokeCode
  | munmapRelease
  | printErr (msg : String)
deriving DecidableEq

/-- `EXIT_SUCCESS` of `<cstdlib>`. -/
def EXIT_SUCCESS : Nat := 0

/-- `EXIT_FAILURE` of `<cstdlib>`. -/
def EXIT_FAILURE : Nat := 1

/-- The `try` block of `main` (lines 174-230), statement by statement, with
the success of `mmap` and of `mprotect` supplied by the environment.  A
thrown `std::runtime_error` becomes an `Except.error` carrying the message
and the events that happened before the throw. -/
def try_block (mmap_ok mprotect_ok : Bool) :
    Except (String × List Event) (List Event) :=
  -- STEP 9/10: mmap, then the MAP_FAILED check.
  if mmap_ok then
    let tr := [Event.mmapAlloc]
    -- STEP 11: std::copy of the machine code into the region.
    let tr := tr ++ [Event.copyCode]
    -- STEP 12: mprotect to PROT_READ | PROT_EXEC; munmap before the throw.
    if mprotect_ok then
      let tr := tr ++ [Event.mprotectAttempt]
      -- STEP 13: invoke the generated code; STEP 14: munmap.
      let tr := tr ++ [Event.invokeCode]
      let tr := tr ++ [Event.munmapRelease]
      Except.ok tr
    else
      let tr := tr ++ [Event.mprotectAttempt, Event.munmapRelease]
      Except.error ("Failed to make memory executable", tr)
  else
    Except.error ("Failed to allocate memory for machine code", [])

/-- `main`'s outcome around the `try` block: the `catch` handler (lines
231-234) writes `"Error: " + e.what()` to `std::cerr` and returns
`EXIT_FAILURE`; otherwise `main` returns `EXIT_SUCCESS` (line 236). -/
def run_main (mmap_ok mprotect_ok : Bool) : Nat × List Event :=
  match try_block mmap_ok mprotect_ok with
  | Except.ok tr => (EXIT_SUCCESS, tr)
  | Except.error (msg, tr) =>
      (EXIT_FAILURE, tr ++ [Event.printErr ("Error: " ++ msg)])

/-- Events that touch the allocated region's memory or attributes. -/
def region_access : Event → Bool
  | .copyCode | .mprotectAttempt | .invokeCode => true
  | _ => false

end MiJIT

namespace MiJIT

/-- **C6.** When `mprotect` fails, the trace allocates exactly once and
unmaps exactly once, and the `munmap` happens strictly before the error
message surfaces: the region is released before the error propagates, so no
mapping is leaked on this path. -/
theorem seal_failure_releases_before_error :
    ((run_main true false).2.count Event.mmapAlloc = 1) ∧
    ((run_main true false).2.count Event.munmapRelease = 1) ∧
    ((run_main true false).2.indexOf Event.munmapRelease <
      (run_main true false).2.indexOf
        (Event.printErr "Error: Failed to make memory executable")) ∧
    ((run_main true false).2.count
      (Event.printErr "Error: Failed to make memory executable") = 1) := by
  refine ⟨?_, ?_, ?_, ?_⟩ <;> decide

/-- **C7.** On every path on which the region was allocated — `mprotect`
succeeding or failing — `munmap` is called exactly once, and no event after
the `munmap` accesses the region; when allocation fails, no release
happens (there is no region). -/
theorem lifecycle_release_exactly_once (mprotect_ok : Bool) :
    ((run_main true mprotect_ok).2.count Event.munmapRelease = 1) ∧
    (((run_main true mprotect_ok).2.drop
        ((run_main true mprotect_ok).2.indexOf Event.munmapRelease + 1)).all
      (fun e => ! region_access e) = true) ∧
    ((run_main false mprotect_ok).2.count Event.munmapRelease = 0) := by
  cases mprotect_ok <;> exact ⟨by decide, by decide, by decide⟩

/-- **C8.** `main` returns `EXIT_SUCCESS` on a clean run (with no error
output); when allocation fails it returns `EXIT_FAILURE` and writes a
message naming the allocation step to the error stream, and when the
permission flip fails it returns `EXIT_FAILURE` with a message naming the
make-executable step; the two messages are distinct. -/
theorem exit_code_contract (mprotect_ok : Bool) :
    ((run_main true true).1 = EXIT_SUCCESS) ∧
    ((run_main true true).2.all
      (fun e => match e with | Event.printErr _ => false | _ => true) =
        true) ∧
    ((run_main false mprotect_ok).1 = EXIT_FAILURE) ∧
    ((run_main false mprotect_ok).2.count
      (Event.printErr "Error: Failed to allocate memory for machine code") =
        1) ∧
    ((run_main true false).1 = EXIT_FAILURE) ∧
    ((run_main true false).2.count
      (Event.printErr "Error: Failed to make memory executable") = 1) ∧
    ("Failed to allocate memory for machine code" ≠
      "Failed to make memory executable") := by
  cases mprotect_ok <;>
    exact ⟨rfl, by decide, rfl, by decide, rfl, by decide, by decide⟩

end MiJIT

namespace MiJIT

/-- `size_t` values wrap modulo `2 ^ 64`. -/
def SIZE_T_MOD : Nat := 2 ^ 64

/-- The guard of iteration `k` (counted from zero) of the loop in
`estimate_memory_size` (lines 247-263 of `main.cpp`): at iteration `k` the
factor is `k + 1`, `required_memory_size` is
`factor * page_size_multiple` computed in `size_t`, and the loop stops when
`machine_code_size <= required_memory_size`. -/
def ems_hits (machine_code_size page_size_multiple k : Nat) : Prop :=
  machine_code_size ≤ ((k + 1) * page_size_multiple) % SIZE_T_MOD

instance (n p : Nat) : DecidablePred (ems_hits n p) := fun _ =>
  Nat.decLe _ _

/-- The loop of `estimate_memory_size` returns at all: some iteration's
`required_memory_size` reaches `machine_code_size`. -/
def ems_terminates (machine_code_size page_size_multiple : Nat) : Prop :=
  ∃ k, ems_hits machine_code_size page_size_multiple k

/-- `estimate_memory_size` (lines 247-263): the page size comes from
`sysconf(_SC_PAGE_SIZE)` and is passed here as `page_size_multiple`; the
value returned is `factor * page_size_multiple` at the first factor
(starting from 1) whose product, in `size_t` arithmetic, reaches
`machine_code_size`.  The termination hypothesis makes the partial loop a
total function on the inputs where the C++ loop returns. -/
def estimate_memory_size (machine_code_size page_size_multiple : Nat)
    (h : ems_terminates machine_code_size page_size_multiple) : Nat :=
  ((Nat.find h + 1) * page_size_multiple) % SIZE_T_MOD

/-- The mathematically smallest positive multiplier `q` with `n ≤ q * p`. -/
def least_factor (n p : Nat) : Nat := max 1 ((n + p - 1) / p)

theorem le_least_factor_mul (n p : Nat) (hp0 : 0 < p) :
    n ≤ least_factor n p * p := by
  have h1 : p * ((n + p - 1) / p) + (n + p - 1) % p = n + p - 1 :=
    Nat.div_add_mod _ _
  have h2 : (n + p - 1) % p < p := Nat.mod_lt _ hp0
  have h3 : n ≤ (n + p - 1) / p * p := by
    rw [Nat.mul_comm]
    set t := p * ((n + p - 1) / p) with ht
    set r := (n + p - 1) % p with hr
    omega
  exact le_trans h3 (Nat.mul_le_mul_right p (le_max_right 1 _))

theorem least_factor_min (n p : Nat) (hp0 : 0 < p) :
    ∀ m, 1 ≤ m → n ≤ m * p → least_factor n p ≤ m := by
  intro m hm1 hmn
  apply max_le hm1
  rw [Nat.div_le_iff_le_mul_add_pred hp0]
  have h4 : n + (p - 1) ≤ p * m + (p - 1) :=
    Nat.add_le_add_right (by rwa [Nat.mul_comm] at hmn) _
  calc n + p - 1 = n + (p - 1) := by omega
    _ ≤ p * m + (p - 1) := h4

/-- When the true least multiple does not overflow `size_t`, the loop stops
exactly there. -/
theorem estimate_memory_size_eq_least (n p : Nat) (hp0 : 0 < p)
    (hwrap : least_factor n p * p < SIZE_T_MOD) :
    ∃ h : ems_terminates n p,
      estimate_memory_size n p h = least_factor n p * p := by
  have hq1 : 1 ≤ least_factor n p := le_max_left 1 _
  have hqge : n ≤ least_factor n p * p := le_least_factor_mul n p hp0
  have hhit : ems_hits n p (least_factor n p - 1) := by
    show n ≤ ((least_factor n p - 1 + 1) * p) % SIZE_T_MOD
    rw [Nat.sub_add_cancel hq1, Nat.mod_eq_of_lt hwrap]
    exact hqge
  refine ⟨⟨_, hhit⟩, ?_⟩
  have hfind : Nat.find (⟨_, hhit⟩ : ems_terminates n p) =
      least_factor n p - 1 := by
    rw [Nat.find_eq_iff]
    refine ⟨hhit, ?_⟩
    intro j hj hcon
    have hjq : j + 1 < least_factor n p := by omega
    have hlt : (j + 1) * p < SIZE_T_MOD :=
      lt_of_le_of_lt (Nat.mul_le_mul_right p (by omega)) hwrap
    rw [ems_hits, Nat.mod_eq_of_lt hlt] at hcon
    have := least_factor_min n p hp0 (j + 1) (by omega) hcon
    omega
  rw [estimate_memory_size, hfind, Nat.sub_add_cancel hq1,
    Nat.mod_eq_of_lt hwrap]

end MiJIT

namespace MiJIT

/-- **C2 (counterexample).** The claim quantifies over every byte count, but
for `machine_code_size = 2^64 - 1` and page size `2` no iteration of the
loop ever satisfies the guard — every `factor * 2` wraps to an even value
below `2^64` — so `estimate_memory_size` never returns, let alone the
smallest positive multiple of the page size. -/
theorem estimate_memory_size_diverges_near_max :
    ¬ ems_terminates (SIZE_T_MOD - 1) 2 := by
  rintro ⟨k, hk⟩
  rw [ems_hits] at hk
  have hdvd : 2 ∣ ((k + 1) * 2) % SIZE_T_MOD :=
    (Nat.dvd_mod_iff ⟨2 ^ 63, by decide⟩).mpr (dvd_mul_left 2 (k + 1))
  have hlt : ((k + 1) * 2) % SIZE_T_MOD < SIZE_T_MOD :=
    Nat.mod_lt _ (Nat.two_pow_pos 64)
  obtain ⟨t, ht⟩ := hdvd
  rw [ht] at hk hlt
  have hA : SIZE_T_MOD = 2 * 2 ^ 63 := by decide
  omega

/-- **C2 (amended).** For every byte count `n` and page size `p = 2^i` with
`i < 64` and `n ≤ 2^64 - p` (so that the smallest multiple is representable
in `size_t`), the loop terminates and `estimate_memory_size` returns the
smallest positive multiple of `p` that is `≥ n`; in particular it returns
`p` for `n = 0`, `p` for `n = p`, and `2p` for `n = p + 1`. -/
theorem estimate_memory_size_least_multiple (n p i : Nat) (hp : p = 2 ^ i)
    (hi : i < 64) (hn : n ≤ SIZE_T_MOD - p) :
    ∃ h : ems_terminates n p,
      p ∣ estimate_memory_size n p h ∧
      0 < estimate_memory_size n p h ∧
      n ≤ estimate_memory_size n p h ∧
      (∀ m, 0 < m → p ∣ m → n ≤ m → estimate_memory_size n p h ≤ m) ∧
      (n = 0 → estimate_memory_size n p h = p) ∧
      (n = p → estimate_memory_size n p h = p) ∧
      (n = p + 1 → estimate_memory_size n p h = 2 * p) := by
  have hp0 : 0 < p := hp ▸ Nat.two_pow_pos i
  have hsub : (2 : Nat) ^ (64 - i) * p = SIZE_T_MOD := by
    rw [hp, ← pow_add]
    show (2 : Nat) ^ (64 - i + i) = 2 ^ 64
    congr 1
    omega
  have h1B : 1 ≤ (2 : Nat) ^ (64 - i) - 1 := by
    have h2 : (2 : Nat) ^ 1 ≤ 2 ^ (64 - i) :=
      Nat.pow_le_pow_right (by decide) (by omega)
    have h2' : (2 : Nat) ≤ 2 ^ (64 - i) := by simpa using h2
    omega
  have hfull : ((2 : Nat) ^ (64 - i) - 1) * p = SIZE_T_MOD - p := by
    rw [Nat.sub_mul, one_mul, hsub]
  have hmax : least_factor n p * p ≤ SIZE_T_MOD - p := by
    have hnle : n ≤ ((2 : Nat) ^ (64 - i) - 1) * p := by rw [hfull]; exact hn
    have hle := least_factor_min n p hp0 (2 ^ (64 - i) - 1) h1B hnle
    calc least_factor n p * p ≤ (2 ^ (64 - i) - 1) * p :=
          Nat.mul_le_mul_right p hle
      _ = SIZE_T_MOD - p := hfull
  have hwrap : least_factor n p * p < SIZE_T_MOD := by
    have hM : 0 < SIZE_T_MOD := Nat.two_pow_pos 64
    omega
  obtain ⟨h, hval⟩ := estimate_memory_size_eq_least n p hp0 hwrap
  have hdvdV : p ∣ estimate_memory_size n p h := by
    rw [hval]; exact dvd_mul_left p _
  have hposV : 0 < estimate_memory_size n p h := by
    rw [hval]
    exact Nat.mul_pos (Nat.lt_of_lt_of_le (by decide) (le_max_left 1 _)) hp0
  have hgeV : n ≤ estimate_memory_size n p h := by
    rw [hval]; exact le_least_factor_mul n p hp0
  have hminV : ∀ m, 0 < m → p ∣ m → n ≤ m →
      estimate_memory_size n p h ≤ m := by
    intro m hm0 hdvd hnm
    rw [hval]
    obtain ⟨t, ht⟩ := hdvd
    have ht1 : 1 ≤ t := by
      rcases Nat.eq_zero_or_pos t with h0 | h1
      · subst h0; rw [Nat.mul_zero] at ht; omega
      · exact h1
    have hq := least_factor_min n p hp0 t ht1
      (by rw [Nat.mul_comm, ← ht]; exact hnm)
    calc least_factor n p * p ≤ t * p := Nat.mul_le_mul_right p hq
      _ = m := by rw [Nat.mul_comm, ← ht]
  have hpleV : p ≤ estimate_memory_size n p h := Nat.le_of_dvd hposV hdvdV
  refine ⟨h, hdvdV, hposV, hgeV, hminV, ?_, ?_, ?_⟩
  · intro h0
    have hle : estimate_memory_size n p h ≤ p :=
      hminV p hp0 dvd_rfl (by omega)
    omega
  · intro h0
    have hle : estimate_memory_size n p h ≤ p :=
      hminV p hp0 dvd_rfl (by omega)
    omega
  · intro h0
    have hle : estimate_memory_size n p h ≤ 2 * p :=
      hminV (2 * p) (by omega) ⟨2, by ring⟩ (by omega)
    obtain ⟨t, ht⟩ := hdvdV
    have ht2 : 2 ≤ t := by
      rcases Nat.lt_or_ge t 2 with hlt2 | hge2
      · have h01 : t = 0 ∨ t = 1 := by omega
        rcases h01 with rfl | rfl
        · rw [Nat.mul_zero] at ht; omega
        · rw [Nat.mul_one] at ht; omega
      · exact hge2
    have hge2p : 2 * p ≤ estimate_memory_size n p h := by
      rw [ht]
      calc 2 * p = p * 2 := Nat.mul_comm 2 p
        _ ≤ p * t := Nat.mul_le_mul_left p ht2
    omega

/-- **C2 (witness).** The amended statement at `n = 5000`, `p = 4096`. -/
theorem estimate_memory_size_least_multiple_inst :
    ∃ h : ems_terminates 5000 4096,
      4096 ∣ estimate_memory_size 5000 4096 h ∧
      0 < estimate_memory_size 5000 4096 h ∧
      5000 ≤ estimate_memory_size 5000 4096 h ∧
      (∀ m, 0 < m → 4096 ∣ m → 5000 ≤ m →
        estimate_memory_size 5000 4096 h ≤ m) ∧
      ((5000 : Nat) = 0 → estimate_memory_size 5000 4096 h = 4096) ∧
      ((5000 : Nat) = 4096 → estimate_memory_size 5000 4096 h = 4096) ∧
      ((5000 : Nat) = 4096 + 1 →
        estimate_memory_size 5000 4096 h = 2 * 4096) :=
  estimate_memory_size_least_multiple 5000 4096 12 (by decide) (by decide)
    (by decide)

end MiJIT

namespace MiJIT

/-- **C10 (counterexample).** The claim says the loop never terminates once
`n` exceeds the largest multiple of `p` representable in `size_t`, for every
`p ≥ 1`.  For `p = 7` and `n = 2^64 - 1` the largest representable multiple
is `2^64 - 2 < n`, yet the loop terminates: at factor
`10540996613548315209` the product `factor * 7` wraps modulo `2^64` to
exactly `2^64 - 1`. -/
theorem ems_terminates_beyond_max_multiple :
    7 * ((SIZE_T_MOD - 1) / 7) < SIZE_T_MOD - 1 ∧
    ems_terminates (SIZE_T_MOD - 1) 7 := by
  refine ⟨by decide, ⟨10540996613548315208, by decide⟩⟩

/-- **C10 (amended).** For every page size `p ≥ 1` and every byte count `n`
no larger than the largest multiple of `p` representable in `size_t`, the
loop of `estimate_memory_size` terminates; and when `p` is a positive power
of two `2^i` (`i < 64`), for every `n` above `2^64 - p` it never
terminates. -/
theorem ems_loop_termination :
    (∀ p n, 1 ≤ p → n ≤ p * ((SIZE_T_MOD - 1) / p) → ems_terminates n p) ∧
    (∀ i p n, p = 2 ^ i → i < 64 → SIZE_T_MOD - p < n →
      ¬ ems_terminates n p) := by
  constructor
  · intro p n hp hn
    rcases Nat.lt_or_ge (SIZE_T_MOD - 1) p with hgt | hle
    · have hd0 : (SIZE_T_MOD - 1) / p = 0 := Nat.div_eq_of_lt hgt
      rw [hd0, Nat.mul_zero] at hn
      exact ⟨0, by rw [ems_hits]; omega⟩
    · refine ⟨(SIZE_T_MOD - 1) / p - 1, ?_⟩
      rw [ems_hits]
      have hf1 : 1 ≤ (SIZE_T_MOD - 1) / p :=
        (Nat.one_le_div_iff (by omega)).mpr hle
      rw [Nat.sub_add_cancel hf1]
      have hmle : (SIZE_T_MOD - 1) / p * p ≤ SIZE_T_MOD - 1 :=
        Nat.div_mul_le_self _ _
      have hM : 0 < SIZE_T_MOD := Nat.two_pow_pos 64
      rw [Nat.mod_eq_of_lt (by omega)]
      rw [Nat.mul_comm]
      exact hn
  · intro i p n hp hi hn
    rintro ⟨k, hk⟩
    rw [ems_hits] at hk
    subst hp
    have hdvdM : (2 : Nat) ^ i ∣ SIZE_T_MOD := by
      show (2 : Nat) ^ i ∣ 2 ^ 64
      exact pow_dvd_pow 2 (by omega)
    have hdvd : (2 : Nat) ^ i ∣ ((k + 1) * 2 ^ i) % SIZE_T_MOD :=
      (Nat.dvd_mod_iff hdvdM).mpr (dvd_mul_left _ _)
    have hlt : ((k + 1) * 2 ^ i) % SIZE_T_MOD < SIZE_T_MOD :=
      Nat.mod_lt _ (Nat.two_pow_pos 64)
    obtain ⟨t, ht⟩ := hdvd
    have hsplit : SIZE_T_MOD = 2 ^ i * 2 ^ (64 - i) := by
      show (2 : Nat) ^ 64 = 2 ^ i * 2 ^ (64 - i)
      rw [← pow_add]
      congr 1
      omega
    rw [ht, hsplit] at hlt
    have htlt : t < 2 ^ (64 - i) := Nat.lt_of_mul_lt_mul_left hlt
    have hub : 2 ^ i * t ≤ 2 ^ i * (2 ^ (64 - i) - 1) :=
      Nat.mul_le_mul_left _ (by omega)
    have heq : 2 ^ i * (2 ^ (64 - i) - 1) = SIZE_T_MOD - 2 ^ i := by
      rw [Nat.mul_sub_one, ← hsplit]
    rw [ht] at hk
    omega

/-- **C10 (witness).** The amended statement applied at `p = 4096`,
`n = 8192` (termination) and at `p = 2`, `n = 2^64 - 1`
(non-termination). -/
theorem ems_loop_termination_inst :
    ems_terminates 8192 4096 ∧ ¬ ems_terminates (2 ^ 64 - 1) 2 :=
  ⟨ems_loop_termination.1 4096 8192 (by decide) (by decide),
   ems_loop_termination.2 1 2 (2 ^ 64 - 1) rfl (by decide) (by decide)⟩

end MiJIT
